import Mathlib

/-!
# Verification of the Blocks language core (lexer, parser, scopes, interpreter)

Shallow embedding of `src/parser.ts` (lexer `lex`, parser `parse`) and
`src/interpreter.ts` (scope chain `getVar`/`setVar`, statement executor
`executeNode`, user-function invocation `executeFunction`, expression
evaluator `evalExpr`) of the Blocks repository, together with theorems
settling the specification claims about them.

Modelling conventions:
* JavaScript strings are Lean `String`s; all character-level operations are
  written over `String.data : List Char` so concrete computations reduce.
* JavaScript dynamic values are the closed tagged union `Value`
  (undefined / number / boolean / string / list).  Numbers are modelled as
  `Int`: every numeric literal and arithmetic result appearing in the
  analysed programs is integral.
* The mutable prototype-chained scope objects (`Object.create(parent)`)
  are modelled as an arena of frames (`Ctx.arena`); a scope is an index
  into the arena and each frame stores its own properties in insertion
  order plus its parent index.  `Object.getPrototypeOf` walks are arena
  walks, bounded by the arena length (parents created by
  `createChildScope` always point to existing, earlier frames).
* The host JavaScript engine's `new Function(...names, body)(...vals)`
  call used by `evalExpr`'s general path cannot be embedded; it is a
  parameter `js : JsOracle` receiving the transformed source text and the
  environment the interpreter builds, returning `none` when the host call
  would throw (syntax error or runtime fault).  Everything the
  interpreter itself does around that call is embedded faithfully.
-/

namespace Blocks

/-! ## Character/string helpers (List Char level, mirroring the JS string ops used) -/

/-- JavaScript `\s` on the characters occurring in source lines (space, tab, ...). -/
def isWs (c : Char) : Bool := c.isWhitespace

/-- Leading-whitespace prefix length: the JS `line.match(/^(\s+)/)` count. -/
def leadingWsCount (l : List Char) : Nat := (l.takeWhile isWs).length

/-- `String.prototype.trim` on a character list. -/
def trimChars (l : List Char) : List Char :=
  ((l.dropWhile isWs).reverse.dropWhile isWs).reverse

def trimStr (s : String) : String := ⟨trimChars s.data⟩

/-- Split a character list at every occurrence of a separator character
(JS `str.split(sep)` semantics: n separators give n+1 pieces). -/
def splitCharsOn (sep : Char) : List Char → List (List Char)
  | [] => [[]]
  | c :: rest =>
    let r := splitCharsOn sep rest
    if c = sep then [] :: r
    else
      match r with
      | [] => [[c]]
      | p :: ps => (c :: p) :: ps

/-- JS `\w` word character: ASCII letter, digit or underscore. -/
def isWordChar (c : Char) : Bool := c.isAlpha || c.isDigit || c = '_'

def isIdentStart (c : Char) : Bool := c.isAlpha || c = '_'

/-- The variable-name grammar `^[A-Za-z_][A-Za-z0-9_]*$`. -/
def isIdentChars : List Char → Bool
  | [] => false
  | c :: rest => isIdentStart c && rest.all isWordChar

/-- `Number(expr)` restricted to the optionally-negated decimal integer
literals that occur in this development.  The host coercion additionally
accepts decimals, exponents, hex and surrounding whitespace; none of those
forms reach the numeric fast path in the programs analysed here, and a
string this function rejects is also one the fast-path test
`!isNaN(Number(expr))` rejects for every expression this development
evaluates. -/
def decodeIntLit (l : List Char) : Option Int :=
  match l with
  | '-' :: ds => if ds ≠ [] && ds.all Char.isDigit then some (-(ofDigits ds)) else none
  | ds => if ds ≠ [] && ds.all Char.isDigit then some (ofDigits ds) else none
where
  ofDigits (ds : List Char) : Int :=
    ds.foldl (fun acc c => acc * 10 + (c.toNat - '0'.toNat)) 0

/-- Replace the whole words `and` / `or` by `&&` / `||`:
`expr.replace(/\band\b/g, '&&').replace(/\bor\b/g, '||')`.  A `\b`
boundary cuts exactly between word and non-word characters, so the
replacement rewrites precisely the maximal word-character runs equal to
`and` or `or`. -/
def transformAndOr (s : String) : String := ⟨go [] s.data⟩
where
  /-- Rewrite one maximal word-character run. -/
  rep (run : List Char) : List Char :=
    if run = ['a', 'n', 'd'] then ['&', '&']
    else if run = ['o', 'r'] then ['|', '|']
    else run
  /-- `acc` holds the reversed word run currently being read. -/
  go (acc : List Char) : List Char → List Char
    | [] => rep acc.reverse
    | c :: rest =>
      if isWordChar c then go (c :: acc) rest
      else rep acc.reverse ++ c :: go [] rest

/-! ## Lexer (`lex` in parser.ts)

Converts raw source text into logical-line tokens (trimmed text + indent),
merging physical lines while the running `[`/`]` bracket depth is
positive. -/

structure Token where
  value : String
  indent : Nat
deriving DecidableEq, Repr

/-- `isBlankOrComment` in parser.ts. -/
def isBlankOrComment (line : List Char) : Bool :=
  let t := trimChars line
  t = [] || t.headD ' ' = '#'

/-- Net `[`/`]` bracket change of a line (`localBracketChange`). -/
def bracketDelta (l : List Char) : Int :=
  l.foldl (fun d c => if c = '[' then d + 1 else if c = ']' then d - 1 else d) 0

/-- Mutable lexer state: accumulated tokens, the multiline buffer, the
running bracket depth and the indent of the buffered logical line. -/
structure LexState where
  tokens : List Token
  buffer : List Char
  bracketDepth : Int
  currentIndent : Nat

/-- `flushBuffer()` in `lex`. -/
def flushBuffer (st : LexState) : LexState :=
  let toks :=
    if trimChars st.buffer ≠ [] then
      st.tokens ++ [⟨⟨trimChars st.buffer⟩, st.currentIndent⟩]
    else st.tokens
  ⟨toks, [], 0, 0⟩

/-- One iteration of the `for` loop over raw lines in `lex`. -/
def lexLine (st : LexState) (line : List Char) : LexState :=
  if isBlankOrComment line && st.bracketDepth = 0 then st
  else
    let leadingSpaces := leadingWsCount line
    let trimmed := trimChars line
    if trimmed = [] && st.bracketDepth = 0 then st
    else
      let localBracketChange := bracketDelta trimmed
      let st :=
        if st.bracketDepth = 0 then
          { st with buffer := trimmed, currentIndent := leadingSpaces,
                    bracketDepth := localBracketChange }
        else
          { st with buffer := st.buffer ++ ' ' :: trimmed,
                    bracketDepth := st.bracketDepth + localBracketChange }
      if st.bracketDepth ≤ 0 then flushBuffer st else st

/-- `lex(input)`: split on newlines, run the line loop, flush a leftover
open buffer at end of input. -/
def lex (input : String) : List Token :=
  let rawLines := splitCharsOn '\n' input.data
  let st := rawLines.foldl lexLine ⟨[], [], 0, 0⟩
  if st.bracketDepth ≠ 0 then (flushBuffer st).tokens else st.tokens

/-! ## AST (types.ts / the node shapes produced by parser.ts)

`ASTNode` in types.ts is an open record `{type: string, [key: string]: any}`;
the constructors below are exactly the shapes `parseStatement` produces.
In particular a `LoopFor` node carries `varName`, `countExpr` and `body`
(and no `count` field — see `loopForCountRead`). -/

inductive ASTNode where
  | canvasSize (width height : Int)
  | functionDeclaration (name : String) (args : List String) (body : List ASTNode)
  | loopFor (varName : String) (countExpr : String) (body : List ASTNode)
  | loopWhile (condition : String) (body : List ASTNode)
  | ifStatement (condition : String) (consequent : List ASTNode) (alternate : List ASTNode)
  | returnStatement (expression : String)
  | assignment (varName : String) (value : String)
  | call (callee : String) (args : List String)
  | noop
  | unknown (line : String)
deriving Repr

/-! ## Statement matchers (the regular expressions in `parseStatement`) -/

/-- If `pre` is a prefix, return the remainder (`line.startsWith` + drop). -/
def dropPre (pre l : List Char) : Option (List Char) :=
  match pre, l with
  | [], l => some l
  | _ :: _, [] => none
  | p :: ps, c :: cs => if p = c then dropPre ps cs else none

def expectChar (c : Char) : List Char → Option (List Char)
  | [] => none
  | x :: rest => if x = c then some rest else none

def skipWs (l : List Char) : List Char := l.dropWhile isWs

/-- `\s+`: at least one whitespace character, greedily consumed. -/
def skipWs1 : List Char → Option (List Char)
  | [] => none
  | c :: rest => if isWs c then some (skipWs rest) else none

/-- Maximal `[A-Za-z_][A-Za-z0-9_]*` prefix and the remainder. -/
def identPre (l : List Char) : Option (List Char × List Char) :=
  match l with
  | [] => none
  | c :: rest =>
    if isIdentStart c then some (c :: rest.takeWhile isWordChar, rest.dropWhile isWordChar)
    else none

/-- Maximal `\d+` prefix and the remainder. -/
def digitsPre (l : List Char) : Option (Nat × List Char) :=
  let ds := l.takeWhile Char.isDigit
  if ds = [] then none
  else some (ds.foldl (fun acc c => acc * 10 + (c.toNat - '0'.toNat)) 0, l.dropWhile Char.isDigit)

/-- Substring test (JS `line.includes(sub)`). -/
def containsSub (sub : List Char) : List Char → Bool
  | [] => sub.isPrefixOf []
  | c :: rest => sub.isPrefixOf (c :: rest) || containsSub sub rest

/-- `match[2].split(',').map(a => a.trim()).filter(Boolean)`. -/
def splitTrimArgs (inner : List Char) : List String :=
  ((splitCharsOn ',' inner).map trimChars).filterMap
    (fun p => if p = [] then none else some ⟨p⟩)

/-- `^CanvasSize\s*=\s*\((\d+)\s*,\s*(\d+)\)` (unanchored at the end). -/
def matchCanvasSize (l : List Char) : Option (Int × Int) := do
  let l ← dropPre "CanvasSize".data l
  let l ← expectChar '=' (skipWs l)
  let l ← expectChar '(' (skipWs l)
  let (w, l) ← digitsPre l
  let l ← expectChar ',' (skipWs l)
  let (h, l) ← digitsPre (skipWs l)
  let _ ← expectChar ')' l
  return ((w : Int), (h : Int))

/-- The lazy `\((.*?)\)\s*:` tail of the function-declaration regex: the
contents up to the first `)` that is followed by optional whitespace and
a colon. -/
def lazyParenColon : List Char → Option (List Char)
  | [] => none
  | c :: rest =>
    if c = ')' && (skipWs rest).headD ' ' = ':' then some []
    else (lazyParenColon rest).map (c :: ·)

/-- `^function\s+([A-Za-z_][A-Za-z0-9_]*)\((.*?)\)\s*:` → name and
parameter names. -/
def matchFunctionDecl (l : List Char) : Option (String × List String) := do
  let l ← dropPre "function".data l
  let l ← skipWs1 l
  let (name, l) ← identPre l
  let l ← expectChar '(' l
  let inner ← lazyParenColon l
  return (⟨name⟩, splitTrimArgs inner)

/-- `^loop\s+([A-Za-z_][A-Za-z0-9_]*)=(.+)\s+times:$` → loop variable and
count expression.  The greedy `(.+)` with the anchored tail means: the
remainder after `=` must end in `times:` preceded by at least one
whitespace character, with a nonempty (possibly all-whitespace) part
before it, which is then trimmed. -/
def matchLoopTimes (l : List Char) : Option (String × String) := do
  let l ← dropPre "loop".data l
  let l ← skipWs1 l
  let (v, l) ← identPre l
  let l ← expectChar '=' l
  if "times:".data.isSuffixOf l then
    let r := l.take (l.length - 6)
    match r.reverse with
    | w :: _ :: _ => if isWs w then some (⟨v⟩, ⟨trimChars r⟩) else none
    | _ => none
  else none

/-- Everything strictly before the last occurrence of `c`, if any. -/
def beforeLast (c : Char) (l : List Char) : Option (List Char) :=
  match l.reverse.dropWhile (fun x => x ≠ c) with
  | [] => none
  | _ :: rest => some rest.reverse

/-- `^loop\s+while\s+(.*):` → condition (greedy `(.*)` runs to the last
colon; the regex is unanchored at the end). -/
def matchLoopWhile (l : List Char) : Option String := do
  let l ← dropPre "loop".data l
  let l ← skipWs1 l
  let l ← dropPre "while".data l
  let l ← skipWs1 l
  let cond ← beforeLast ':' l
  return ⟨trimChars cond⟩

/-- `^if\s+(.*):$` guarded by `line.startsWith('if ')` → condition. -/
def matchIf (l : List Char) : Option String := do
  let l1 ← dropPre "if ".data l
  match l1.reverse with
  | ':' :: condRev => some ⟨trimChars condRev.reverse⟩
  | _ => none

/-- `^(.+)\s*=\s*(.*)$`: the greedy `(.+)` selects the last `=` in the
line that has at least one character before it; both sides are trimmed
by the parser. -/
def matchAssignment (l : List Char) : Option (String × String) :=
  match l.reverse.dropWhile (fun x => x ≠ '=') with
  | [] => none
  | _ :: beforeRev =>
    if beforeRev = [] then none
    else some (⟨trimChars beforeRev.reverse⟩,
               ⟨trimChars (l.reverse.takeWhile (fun x => x ≠ '=')).reverse⟩)

/-- `^([A-Za-z_][A-Za-z0-9_]*)\((.*)\)$` → callee and comma-split args. -/
def matchCall (l : List Char) : Option (String × List String) := do
  let (callee, rest) ← identPre l
  let rest ← expectChar '(' rest
  match rest.reverse with
  | c :: innerRev => if c = ')' then some (⟨callee⟩, splitTrimArgs innerRev.reverse) else none
  | [] => none

/-! ## Parser (`parse` in parser.ts)

Recursive descent over indentation with an explicit position.  The
mutual recursion is fuelled; `parse` supplies `2·|tokens| + 2` fuel,
which the call-depth analysis in `parse`'s doc comment shows is never
exhausted, so the fuel-0 branches are unreachable. -/

/-- The two mutually recursive parser procedures at one fuel level
(mutual recursion is encoded by fuel-indexed levels so that concrete
parses reduce definitionally). -/
structure ParseFns where
  block : Int → Nat → List ASTNode × Nat
  stmt : Nat → ASTNode × Nat

/-- One level of the parser recursion: `block` is the body of
`parseBlock(parentIndent)` (consume statements while the next token's
indent is strictly greater than `parentIndent`), `stmt` the body of
`parseStatement()` (consume `tokens[position++]`, dispatch on the
statement forms in source order, block openers recursing into the
previous level's `block` with their own indent, the if-statement
additionally consuming an `else:` token at exactly its own indent; a
failed guard or regex falls through to the next form and the final
fallback is an inert `Unknown` node).  Recursive calls go through
`prev`. -/
def parseStep (toks : List Token) (prev : ParseFns) : ParseFns where
  block := fun parentIndent pos =>
    match toks.get? pos with
    | none => ([], pos)
    | some t =>
      if (t.indent : Int) ≤ parentIndent then ([], pos)
      else
        let (stmt, pos') := prev.stmt pos
        let (rest, pos'') := prev.block parentIndent pos'
        (stmt :: rest, pos'')
  stmt := fun pos =>
    match toks.get? pos with
    | none => (.noop, pos + 1)
    | some t =>
      let pos := pos + 1
      let l := t.value.data
      match matchCanvasSize l with
      | some (w, h) => (.canvasSize w h, pos)
      | none =>
      match matchFunctionDecl l with
      | some (name, args) =>
        let (body, pos') := prev.block t.indent pos
        (.functionDeclaration name args body, pos')
      | none =>
      match (if containsSub "times:".data l then matchLoopTimes l else none) with
      | some (v, countExpr) =>
        let (body, pos') := prev.block t.indent pos
        (.loopFor v countExpr body, pos')
      | none =>
      match (if !containsSub "times:".data l && containsSub "while".data l
             then matchLoopWhile l else none) with
      | some cond =>
        let (body, pos') := prev.block t.indent pos
        (.loopWhile cond body, pos')
      | none =>
      match matchIf l with
      | some cond =>
        let (consequent, pos1) := prev.block t.indent pos
        let (alternate, pos2) :=
          match toks.get? pos1 with
          | some t2 =>
            if "else:".data.isPrefixOf t2.value.data && t2.indent = t.indent then
              prev.block t.indent (pos1 + 1)
            else ([], pos1)
          | none => ([], pos1)
        (.ifStatement cond consequent alternate, pos2)
      | none =>
      if "else:".data.isPrefixOf l then (.noop, pos)
      else if "return ".data.isPrefixOf l then (.returnStatement ⟨trimChars (l.drop 7)⟩, pos)
      else
      match matchAssignment l with
      | some (v, e) => (.assignment v e, pos)
      | none =>
      match matchCall l with
      | some (callee, args) => (.call callee args, pos)
      | none => (.unknown t.value, pos)

/-- The parser at a given fuel; the fuel-0 procedures are never reached
with the fuel `parse` supplies. -/
def parseAt (toks : List Token) : Nat → ParseFns
  | 0 => ⟨fun _ pos => ([], pos), fun pos => (.noop, pos)⟩
  | fuel + 1 => parseStep toks (parseAt toks fuel)

/-- `parseBlock(parentIndent)` at a given recursion fuel. -/
def parseBlock (toks : List Token) (fuel : Nat) (parentIndent : Int) (pos : Nat) :
    List ASTNode × Nat :=
  (parseAt toks fuel).block parentIndent pos

/-- `parseStatement()` at a given recursion fuel.  (Callers only invoke
this with `pos` in range, so its out-of-range branch is unreachable.) -/
def parseStatement (toks : List Token) (fuel : Nat) (pos : Nat) : ASTNode × Nat :=
  (parseAt toks fuel).stmt pos

/-- `parse(tokens)` = `parseBlock(-1)` from position 0.  Fuel bound: with
`R` tokens remaining, `parseBlock` succeeds on fuel `≥ 2R+1` and
`parseStatement` on fuel `≥ 2R` (each consumes one fuel and one level of
nesting consumes a token first), so `2·|tokens|+2` never runs out. -/
def parse (toks : List Token) : List ASTNode :=
  (parseBlock toks (2 * toks.length + 2) (-1) 0).1

/-! ## Values and runtime context (interpreter.ts)

`Value` is the closed tagged union of the dynamic values flowing through
evaluation; `Ctx` is the `Context` object plus the scope arena that
models the prototype-chained scope objects. -/

inductive Value where
  | undefined
  | num (n : Int)
  | bool (b : Bool)
  | str (s : String)
  | list (elems : List Value)
deriving Repr

/-- One scope object: its own properties in insertion order
(`Object.keys` order) and its prototype (`Object.getPrototypeOf`),
`none` standing for `Object.prototype`. -/
structure Frame where
  vars : List (String × Value)
  parent : Option Nat
deriving Repr

/-- A drawing command `{cmd, args, color}`. -/
structure DrawCmd where
  cmd : String
  args : List Value
  color : String
deriving Repr

/-- The fields of a stored `FunctionDeclaration` node that
`executeFunction` reads (`funcNode.args`, `funcNode.body`). -/
structure FuncDecl where
  args : List String
  body : List ASTNode
deriving Repr

/-- The runtime `Context`, with `arena` modelling the heap of scope
objects (`globals` is the index of `context.globals`) and `prints`
modelling the `console.log` sink. -/
structure Ctx where
  arena : List Frame
  globals : Nat
  functions : List (String × FuncDecl)
  errors : List String
  prints : List (List Value)
  drawingCommands : List DrawCmd
  keysDown : List String
  colorStack : List String
deriving Repr

/-- The context `Project.runCode` constructs before `interpret`: empty
globals object, no functions, empty drawing buffer, no pressed keys, and
an empty color stack (`colorStack: []`). -/
def freshCtx : Ctx :=
  { arena := [⟨[], none⟩], globals := 0, functions := [], errors := [],
    prints := [], drawingCommands := [], keysDown := [], colorStack := [] }

def pushError (st : Ctx) (msg : String) : Ctx :=
  { st with errors := st.errors ++ [msg] }

/-! ## Scope chain (`createChildScope`, `getVar`, `setVar`) -/

/-- `Object.prototype.hasOwnProperty.call(frame, name)`. -/
def frameOwns (f : Frame) (name : String) : Bool :=
  f.vars.any (fun p => p.1 = name)

def frameGet (f : Frame) (name : String) : Option Value :=
  (f.vars.find? (fun p => p.1 = name)).map Prod.snd

/-- Property write on one object: overwrite in place if owned, else
define (append, preserving `Object.keys` insertion order). -/
def frameSet (f : Frame) (name : String) (v : Value) : Frame :=
  if frameOwns f name then
    { f with vars := f.vars.map (fun p => if p.1 = name then (name, v) else p) }
  else { f with vars := f.vars ++ [(name, v)] }

def setFrameAt (arena : List Frame) (i : Nat) (name : String) (v : Value) : List Frame :=
  match arena.get? i with
  | some f => arena.set i (frameSet f name v)
  | none => arena

/-- The `while (current && current !== Object.prototype)` walk: index of
the nearest frame in the chain that owns `name`.  The walk is fuelled;
every chain built by `createChildScope` has strictly decreasing parent
indices, so fuel `arena.length + 1` always completes the walk. -/
def chainOwner (arena : List Frame) : Nat → Nat → String → Option Nat
  | 0, _, _ => none
  | fuel + 1, id, name =>
    match arena.get? id with
    | none => none
    | some f =>
      if frameOwns f name then some id
      else
        match f.parent with
        | some p => chainOwner arena fuel p name
        | none => none

/-- Chain lookup (the `name in scope` test plus the read). -/
def lookupVar (arena : List Frame) (id : Nat) (name : String) : Option Value :=
  match chainOwner arena (arena.length + 1) id name with
  | some j => (arena.get? j).bind (fun f => frameGet f name)
  | none => none

/-- `getVar`: chain lookup; a miss reports a condition and yields
undefined. -/
def getVar (name : String) (st : Ctx) (scope : Nat) : Value × Ctx :=
  match lookupVar st.arena scope name with
  | some v => (v, st)
  | none =>
    (.undefined,
     pushError st ("Variable \"" ++ name ++ "\" is not defined in the current scope."))

/-- `setVar`: write to the nearest owning frame in the chain, else define
in the starting frame. -/
def setVar (name : String) (v : Value) (st : Ctx) (scope : Nat) : Ctx :=
  match chainOwner st.arena (st.arena.length + 1) scope name with
  | some j => { st with arena := setFrameAt st.arena j name v }
  | none => { st with arena := setFrameAt st.arena scope name v }

/-- `createChildScope(parentScope)` = `Object.create(parentScope)`:
allocate a fresh empty frame whose prototype is the parent. -/
def createChildScope (st : Ctx) (parent : Nat) : Nat × Ctx :=
  (st.arena.length, { st with arena := st.arena ++ [⟨[], some parent⟩] })

/-! ## Expression evaluator (`evalExpr`) -/

/-- The three extra callables `evalExpr` passes to the compiled function
(after the scope-chain variables). -/
inductive BFn where
  | keyDown
  | sin
  | cos
deriving Repr, DecidableEq

/-- An environment entry handed to the compiled expression: a scope-chain
value or one of the built-in callables. -/
inductive EnvVal where
  | val (v : Value)
  | fn (f : BFn)
deriving Repr

/-- The semantics of the `keyDown` closure passed at the call:
`(key) => context.keysDown.has(key)`. -/
def keyDownImpl (st : Ctx) (key : String) : Bool :=
  st.keysDown.contains key

/-- The scope-chain flatten in `evalExpr`: walk `scope → ... → root`,
collecting each frame's own keys in insertion order, keeping only the
first (nearest) occurrence of each name. -/
def flattenChain (arena : List Frame) : Nat → Nat → List (String × Value) → List (String × Value)
  | 0, _, acc => acc
  | fuel + 1, id, acc =>
    match arena.get? id with
    | none => acc
    | some f =>
      let acc := f.vars.foldl
        (fun acc p => if acc.any (fun q => q.1 = p.1) then acc else acc ++ [p]) acc
      match f.parent with
      | some par => flattenChain arena fuel par acc
      | none => acc

/-- The fixed parameters appended after the scope variables in
`new Function(...varNames, 'keyDown', 'sin', 'cos', body)`. -/
def builtinEnvTail : List (String × EnvVal) :=
  [("keyDown", .fn .keyDown), ("sin", .fn .sin), ("cos", .fn .cos)]

/-- The full parameter/argument environment of the compiled function. -/
def buildEnv (st : Ctx) (scope : Nat) : List (String × EnvVal) :=
  (flattenChain st.arena (st.arena.length + 1) scope []).map (fun p => (p.1, EnvVal.val p.2))
    ++ builtinEnvTail

/-- Binding resolution among the compiled function's parameters: in a
non-strict function duplicate parameter names are legal and the LAST
binding wins, so lookup scans from the right. -/
def envLookup (env : List (String × EnvVal)) (name : String) : Option EnvVal :=
  (env.reverse.find? (fun p => p.1 = name)).map Prod.snd

/-- The host JavaScript engine behind
`new Function(...names, 'return (<text>);')(...vals)`: it receives the
transformed expression text and the environment the interpreter built,
and returns `none` when compiling or running the text throws.  Everything
outside this call is embedded directly. -/
def JsOracle := String → List (String × EnvVal) → Option Value

/-- A host-engine model for expression texts whose compilation or
execution throws (e.g. the text `(`, which becomes the ill-formed program
`return (();`).  Programs whose expressions never reach the general path
compute identically under any oracle; this one is used for them too. -/
def jsNone : JsOracle := fun _ _ => none

/-- `evalExpr(expr, context, scope)`: empty input yields undefined (this
also covers the `rawArgs[i] === undefined` arity-mismatch case, since
`!expr` accepts both); a numeric literal parses; a single identifier is a
scope lookup; anything else is transformed (`and`/`or`), compiled against
the flattened environment, and a thrown error is caught, reported as a
condition carrying the offending text, and evaluates to undefined. -/
def evalExpr (js : JsOracle) (expr : String) (st : Ctx) (scope : Nat) : Value × Ctx :=
  if expr = "" then (.undefined, st)
  else
    match decodeIntLit expr.data with
    | some n => (.num n, st)
    | none =>
      if isIdentChars expr.data then getVar expr st scope
      else
        match js (transformAndOr expr) (buildEnv st scope) with
        | some v => (v, st)
        | none =>
          (.undefined, pushError st ("Failed to evaluate expression: \"" ++ expr ++ "\""))

/-- `argVals = node.args.map(arg => evalExpr(arg, context, scope))`. -/
def evalArgs (js : JsOracle) (args : List String) (st : Ctx) (scope : Nat) :
    List Value × Ctx :=
  match args with
  | [] => ([], st)
  | a :: rest =>
    let (v, st') := evalExpr js a st scope
    let (vs, st'') := evalArgs js rest st' scope
    (v :: vs, st'')

/-! ## Statement executor helpers -/

/-- JavaScript truthiness of a `Value` (objects, hence lists, are always
truthy). -/
def truthy : Value → Bool
  | .undefined => false
  | .num n => n ≠ 0
  | .bool b => b
  | .str s => s ≠ ""
  | .list _ => true

def digitChar : Nat → Char
  | 0 => '0' | 1 => '1' | 2 => '2' | 3 => '3' | 4 => '4'
  | 5 => '5' | 6 => '6' | 7 => '7' | 8 => '8' | _ => '9'

/-- Decimal digits of `n` (fuelled so that it reduces definitionally;
`n + 1` fuel always suffices since `n / 10 < n` for `n > 0`). -/
def natDigits : Nat → Nat → List Char
  | 0, _ => []
  | _, 0 => []
  | fuel + 1, n => natDigits fuel (n / 10) ++ [digitChar (n % 10)]

/-- Decimal notation of an integer, as JavaScript number-to-string
produces for integral values. -/
def intToStr (i : Int) : String :=
  if i < 0 then ⟨'-' :: natDigits ((-i).toNat + 1) (-i).toNat⟩
  else if i = 0 then "0"
  else ⟨natDigits (i.toNat + 1) i.toNat⟩

mutual

/-- Template-literal/`String()` coercion of a value (arrays join their
elements with commas). -/
def valueToStr : Value → String
  | .undefined => "undefined"
  | .num n => intToStr n
  | .bool b => if b then "true" else "false"
  | .str s => s
  | .list es => valueListToStr es

/-- `Array.prototype.join(",")`; `undefined` elements join as empty. -/
def valueListToStr : List Value → String
  | [] => ""
  | [v] => valueElemToStr v
  | v :: rest => valueElemToStr v ++ "," ++ valueListToStr rest

def valueElemToStr : Value → String
  | .undefined => ""
  | v => valueToStr v

end

/-- The template literal `` `rgb(${r}, ${g}, ${b})` ``. -/
def fmtColor (r g b : Value) : String :=
  "rgb(" ++ valueToStr r ++ ", " ++ valueToStr g ++ ", " ++ valueToStr b ++ ")"

/-- `while (colorStack.length > 5) colorStack.shift()`: evict from the
bottom (oldest) until at most five entries remain. -/
def shiftWhileGt5 (l : List String) : List String :=
  if l.length > 5 then shiftWhileGt5 l.tail else l
termination_by l.length
decreasing_by
  rename_i h
  cases l with
  | nil => simp at h
  | cons a as => simp [List.tail_cons]

/-- The `color(r,g,b)` stack update: push, then evict from the bottom. -/
def pushColorStack (stack : List String) (c : String) : List String :=
  shiftWhileGt5 (stack ++ [c])

/-- The `popColor()` stack update: pop the top; reseed a single default
colour if the stack is now empty (`pop` on an empty array is a no-op, so
an initially empty stack is also reseeded). -/
def popColorStack (stack : List String) : List String :=
  let s := stack.dropLast
  if s.isEmpty then ["rgb(0,0,0)"] else s

/-- `context.functions[node.name] = node` (redeclaration replaces). -/
def upsertFunc (funcs : List (String × FuncDecl)) (name : String) (fn : FuncDecl) :
    List (String × FuncDecl) :=
  if funcs.any (fun p => p.1 = name) then
    funcs.map (fun p => if p.1 = name then (name, fn) else p)
  else funcs ++ [(name, fn)]

def lookupFunc (funcs : List (String × FuncDecl)) (name : String) : Option FuncDecl :=
  (funcs.find? (fun p => p.1 = name)).map Prod.snd

/-- The value the `LoopFor` case reads for its bound: the interpreter
destructures `const { varName, count, body } = node`, but parser-produced
`LoopFor` nodes store the bound under `countExpr` and carry no `count`
property, so the destructured read yields `undefined`.  `countExpr` is
never read by the interpreter. -/
def loopForCountRead : Value := .undefined

/-- Pass count of `for (let i = 0; i < count; i++)`: JavaScript `<`
against a non-number (here `undefined`, whose numeric coercion is NaN)
is false, so a non-numeric bound gives zero passes; a numeric bound `n`
gives `max n 0` passes. -/
def loopForIterations (count : Value) : Nat :=
  match count with
  | .num n => n.toNat
  | _ => 0

/-- Parameter binding in `executeFunction`: for each declared parameter
in order, evaluate the matching raw argument in the CALLER's scope and
`setVar` it against the new function scope.  A missing argument
(`rawArgs[i] === undefined`) evaluates to undefined with no effect, which
`evalExpr` on the empty string reproduces exactly. -/
def bindParams (js : JsOracle) : List String → List String → Ctx → Nat → Nat → Ctx
  | [], _, st, _, _ => st
  | p :: ps, rawArgs, st, callerScope, funcScope =>
    let (v, st') := evalExpr js (rawArgs.headD "") st callerScope
    bindParams js ps rawArgs.tail (setVar p v st' funcScope) callerScope funcScope

/-! ## Statement executor and function invocation

The mutually recursive executor procedures (statements ↔ statement lists
↔ loop passes ↔ user-function calls ↔ function bodies) are fuelled, and
the mutual recursion is encoded by fuel-indexed levels (`ExecFns`,
`execStep`, `execAt`) so that concrete runs reduce definitionally.  A
fuel-0 result leaves the state unchanged; each concrete run below picks
fuel large enough that the 0 branches are never reached. -/

/-- The executor procedures at one fuel level: `node` is
`executeNode(node, context, scope)`, `list` executes a statement list in
order in one scope, `forPasses`/`whilePasses` are the loop-iteration
loops of `LoopFor`/`LoopWhile`, `fnCall` is
`executeFunction(name, rawArgs, context, callerScope)` and `body` its
body loop. -/
structure ExecFns where
  node : ASTNode → Ctx → Nat → Ctx
  list : List ASTNode → Ctx → Nat → Ctx
  forPasses : String → List ASTNode → Nat → Int → Ctx → Nat → Ctx
  whilePasses : String → List ASTNode → Ctx → Nat → Ctx
  fnCall : String → List String → Ctx → Nat → Value × Ctx
  body : List ASTNode → Ctx → Nat → Value × Ctx

/-- The fuel-0 executor: leave the state unchanged, yield undefined. -/
def execBase : ExecFns where
  node := fun _ st _ => st
  list := fun _ st _ => st
  forPasses := fun _ _ _ _ st _ => st
  whilePasses := fun _ _ st _ => st
  fnCall := fun _ _ st _ => (.undefined, st)
  body := fun _ st _ => (.undefined, st)

/-- One level of the executor recursion; recursive calls go through
`prev`.

`node` is `executeNode`'s dispatch by node kind: `CanvasSize` always
writes the global scope, `FunctionDeclaration` registers globally
(replacing), `Assignment` evaluates then `setVar`s, `LoopFor`/`LoopWhile`
create ONE child scope for the whole loop and run their passes there,
`IfStatement` evaluates its condition in the CURRENT scope and runs one
branch list there, `Call` first evaluates every argument expression and
then dispatches on the callee (`print`, `circle`, `rectangle`, `color`,
`popColor`, otherwise a user function — which receives the RAW argument
strings and evaluates them again), and `ReturnStatement`/`Noop`/`Unknown`
are no-ops.

`body` is `executeFunction`'s body loop: the first `ReturnStatement` in
the DIRECT statement list evaluates its expression in the function scope
and breaks; every other statement goes through the generic executor. -/
def execStep (js : JsOracle) (prev : ExecFns) : ExecFns where
  node := fun node st scope =>
    match node with
    | .canvasSize w h =>
      setVar "CanvasSize" (.list [.num w, .num h]) st st.globals
    | .functionDeclaration name args body =>
      { st with functions := upsertFunc st.functions name ⟨args, body⟩ }
    | .assignment varName value =>
      let (v, st') := evalExpr js value st scope
      setVar varName v st' scope
    | .loopFor varName _countExpr body =>
      let (loopScope, st') := createChildScope st scope
      prev.forPasses varName body (loopForIterations loopForCountRead) 0 st' loopScope
    | .loopWhile condition body =>
      let (whileScope, st') := createChildScope st scope
      prev.whilePasses condition body st' whileScope
    | .ifStatement condition consequent alternate =>
      let (c, st') := evalExpr js condition st scope
      if truthy c then prev.list consequent st' scope
      else prev.list alternate st' scope
    | .call callee args =>
      let (argVals, st') := evalArgs js args st scope
      if callee = "print" then { st' with prints := st'.prints ++ [argVals] }
      else if callee = "circle" then
        let x := argVals.getD 0 .undefined
        let y := argVals.getD 1 .undefined
        let r := argVals.getD 2 .undefined
        let topColor := st'.colorStack.getLast?.getD "rgb(0,0,0)"
        { st' with drawingCommands := st'.drawingCommands ++ [⟨"circle", [x, y, r], topColor⟩] }
      else if callee = "rectangle" then
        let x := argVals.getD 0 .undefined
        let y := argVals.getD 1 .undefined
        let w := argVals.getD 2 .undefined
        let h := argVals.getD 3 .undefined
        let topColor := st'.colorStack.getLast?.getD "rgb(0,0,0)"
        { st' with drawingCommands := st'.drawingCommands ++ [⟨"rectangle", [x, y, w, h], topColor⟩] }
      else if callee = "color" then
        let r := argVals.getD 0 .undefined
        let g := argVals.getD 1 .undefined
        let b := argVals.getD 2 .undefined
        { st' with colorStack := pushColorStack st'.colorStack (fmtColor r g b) }
      else if callee = "popColor" then
        { st' with colorStack := popColorStack st'.colorStack }
      else
        (prev.fnCall callee args st' scope).2
    | .returnStatement _ => st
    | .noop => st
    | .unknown _ => st
  list := fun stmts st scope =>
    match stmts with
    | [] => st
    | stmt :: rest => prev.list rest (prev.node stmt st scope) scope
  forPasses := fun varName body n i st loopScope =>
    match n with
    | 0 => st
    | n + 1 =>
      let st' := if varName ≠ "" then setVar varName (.num i) st loopScope else st
      prev.forPasses varName body n (i + 1) (prev.list body st' loopScope) loopScope
  whilePasses := fun condition body st whileScope =>
    let (c, st') := evalExpr js condition st whileScope
    if truthy c then
      prev.whilePasses condition body (prev.list body st' whileScope) whileScope
    else st'
  fnCall := fun name rawArgs st callerScope =>
    match lookupFunc st.functions name with
    | none => (.undefined, pushError st ("Function \"" ++ name ++ "\" not defined."))
    | some fn =>
      let (funcScope, st') := createChildScope st callerScope
      let st'' := bindParams js fn.args rawArgs st' callerScope funcScope
      prev.body fn.body st'' funcScope
  body := fun stmts st scope =>
    match stmts with
    | [] => (.undefined, st)
    | stmt :: rest =>
      match stmt with
      | .returnStatement e => evalExpr js e st scope
      | s => prev.body rest (prev.node s st scope) scope

/-- The executor at a given fuel. -/
def execAt (js : JsOracle) : Nat → ExecFns
  | 0 => execBase
  | fuel + 1 => execStep js (execAt js fuel)

/-- `executeNode(node, context, scope)` at a given recursion fuel. -/
def executeNode (js : JsOracle) (fuel : Nat) (node : ASTNode) (st : Ctx) (scope : Nat) : Ctx :=
  (execAt js fuel).node node st scope

/-- Execute a statement list in order in one scope (the bodies of loops,
branches and `interpret`'s top-level pass). -/
def execList (js : JsOracle) (fuel : Nat) (stmts : List ASTNode) (st : Ctx) (scope : Nat) : Ctx :=
  (execAt js fuel).list stmts st scope

/-- The `for (let i = 0; i < count; i++)` passes of `LoopFor`: bind the
loop variable (if declared) then run the body, all in the one shared
loop scope. -/
def loopForAux (js : JsOracle) (fuel : Nat) (varName : String) (body : List ASTNode)
    (n : Nat) (i : Int) (st : Ctx) (loopScope : Nat) : Ctx :=
  (execAt js fuel).forPasses varName body n i st loopScope

/-- The `while (evalExpr(condition, ...))` passes of `LoopWhile`, in the
one shared loop scope. -/
def loopWhileAux (js : JsOracle) (fuel : Nat) (condition : String) (body : List ASTNode)
    (st : Ctx) (whileScope : Nat) : Ctx :=
  (execAt js fuel).whilePasses condition body st whileScope

/-- `executeFunction(name, rawArgs, context, callerScope)` at a given
recursion fuel: missing functions report a condition and yield
undefined; otherwise one child scope of the caller is created,
parameters are bound left to right to argument expressions evaluated in
the caller's scope, and the body runs via `runBody`. -/
def executeFunction (js : JsOracle) (fuel : Nat) (name : String) (rawArgs : List String)
    (st : Ctx) (callerScope : Nat) : Value × Ctx :=
  (execAt js fuel).fnCall name rawArgs st callerScope

/-- The body loop of `executeFunction`: the first `ReturnStatement` in
the DIRECT statement list evaluates its expression in the function scope
and breaks; every other statement goes through the generic executor. -/
def runBody (js : JsOracle) (fuel : Nat) (stmts : List ASTNode) (st : Ctx) (scope : Nat) :
    Value × Ctx :=
  (execAt js fuel).body stmts st scope

/-- `interpret(ast, context)`: execute every top-level node against the
global scope. -/
def interpret (js : JsOracle) (fuel : Nat) (ast : List ASTNode) (st : Ctx) : Ctx :=
  execList js fuel ast st st.globals

/-- Lex, parse and interpret a source text in a fresh context (the
`runCode` pipeline up to and including `interpret`). -/
def runProgram (js : JsOracle) (fuel : Nat) (source : String) : Ctx :=
  interpret js fuel (parse (lex source)) freshCtx

/-! ## Concrete inputs used by the theorems -/

/-- The spec's counted-loop scenario. -/
def loopPrintSrc : String := "loop i=5 times:\n    print(i)"

/-- The spec's scope-mutation scenario. -/
def loopIncSrc : String := "x=0\nloop i=3 times:\n    x=x+1"

/-- The spec's sibling-indentation scenario. -/
def ifSiblingSrc : String := "if x>0:\n    a()\nb()"

/-- A call binding parameter `x` while the caller's globals own `x`. -/
def funcCallSrc : String := "function f(x):\n    return 0\nx = 1\nf(42)"

/-- A context whose globals own a 2×2 `board` list. -/
def boardCtx : Ctx :=
  { freshCtx with
    arena := [⟨[("board", .list [.list [.num 0, .num 0], .list [.num 0, .num 0]])], none⟩] }

/-- A context with two pressed keys. -/
def keysCtx : Ctx := { freshCtx with keysDown := ["a", "b"] }

/-- Globals owning `x = 0` with one child scope, as after entering a
block. -/
def childCtx : Ctx :=
  { freshCtx with arena := [⟨[("x", .num 0)], none⟩, ⟨[], some 0⟩] }

/-- Globals owning `x = 1` with one fresh (empty) function scope. -/
def callCtx : Ctx :=
  { freshCtx with arena := [⟨[("x", .num 1)], none⟩, ⟨[], some 0⟩] }

/-- A function body whose `return` sits inside an if-branch, followed by
an assignment. -/
def nestedReturnBody : List ASTNode :=
  [.ifStatement "1" [.returnStatement "42"] [], .assignment "y" "7"]

/-! # Theorems

General lemmas about the embedded operations, then one theorem per
specification claim. -/

/-! ## Helper lemmas -/

theorem shiftWhileGt5_eq_drop_aux :
    ∀ (n : Nat) (l : List String), l.length ≤ n →
      shiftWhileGt5 l = l.drop (l.length - 5) := by
  intro n
  induction n with
  | zero =>
    intro l hl
    have hl0 : l.length = 0 := Nat.le_zero.mp hl
    rw [shiftWhileGt5]
    simp [hl0]
  | succ n ih =>
    intro l hl
    by_cases h : l.length > 5
    · cases l with
      | nil => simp at h
      | cons a as =>
        rw [shiftWhileGt5, if_pos h]
        simp only [List.tail_cons]
        rw [ih as (by simpa using Nat.lt_succ_iff.mp (Nat.lt_of_lt_of_le (Nat.lt_succ_self _) (Nat.succ_le_succ hl)))]
        have h6 : as.length + 1 - 5 = (as.length - 5) + 1 := by
          simp only [List.length_cons] at h; omega
        simp only [List.length_cons, h6, List.drop_succ_cons]
    · rw [shiftWhileGt5, if_neg h]
      have : l.length - 5 = 0 := by omega
      simp [this]

/-- The eviction loop of `color(...)` keeps exactly the newest at-most-5
entries. -/
theorem shiftWhileGt5_eq_drop (l : List String) :
    shiftWhileGt5 l = l.drop (l.length - 5) :=
  shiftWhileGt5_eq_drop_aux l.length l (Nat.le_refl _)

/-! ## C7: color stack bound -/

/-- C7: executing a `color(r,g,b)` call pushes the formatted color onto
the color stack and, whenever the stack size exceeds 5, removes entries
from the bottom (oldest) until the size is 5.  The post-stack is the
newest ≤ 5 entries of the pushed stack, its size is `min (old+1) 5`
(hence never exceeds 5 after any color call), and pushing a 6th color
onto a full stack of five drops exactly the bottom entry, retaining the
5 most recent. -/
theorem C7_color_stack_bound :
    (∀ (js : JsOracle) (fuel : Nat) (st : Ctx) (scope : Nat),
      executeNode js (fuel + 1) (.call "color" ["255", "0", "0"]) st scope =
        { st with
          colorStack := pushColorStack st.colorStack (fmtColor (.num 255) (.num 0) (.num 0)) }) ∧
    fmtColor (.num 255) (.num 0) (.num 0) = "rgb(255, 0, 0)" ∧
    (∀ (s : List String) (c : String),
      pushColorStack s c = (s ++ [c]).drop (s.length + 1 - 5)) ∧
    (∀ (s : List String) (c : String),
      (pushColorStack s c).length = min (s.length + 1) 5) ∧
    (∀ (s : List String) (c : String), s.length = 5 → pushColorStack s c = s.tail ++ [c]) := by
  refine ⟨?_, ?_, ?_, ?_, ?_⟩
  · intro js fuel st scope
    rfl
  · simp only [fmtColor, valueToStr]
    rfl
  · intro s c
    rw [pushColorStack, shiftWhileGt5_eq_drop]
    simp
  · intro s c
    rw [pushColorStack, shiftWhileGt5_eq_drop]
    simp only [List.length_drop, List.length_append, List.length_cons, List.length_nil]
    omega
  · intro s c h
    rw [pushColorStack, shiftWhileGt5_eq_drop]
    have h1 : (s ++ [c]).length - 5 = 1 := by simp [h]
    rw [h1]
    cases s with
    | nil => simp at h
    | cons a as => simp

/-- Witness for C7 at a full stack: pushing a 6th color onto
`["1",...,"5"]` retains exactly the 5 most recent. -/
theorem C7_color_stack_bound_witness :
    pushColorStack ["1", "2", "3", "4", "5"] "6" =
      ["1", "2", "3", "4", "5"].tail ++ ["6"] :=
  C7_color_stack_bound.2.2.2.2 ["1", "2", "3", "4", "5"] "6" rfl

/-! ## C8: popColor reseeds -/

/-- C8: executing `popColor()` removes the top entry of the color stack
and, if the stack is thereby empty, pushes exactly one default (base)
color, so the stack is non-empty and its top is defined after every
popColor call — including a popColor on an already-singleton or empty
stack. -/
theorem C8_popcolor_nonempty :
    (∀ (js : JsOracle) (fuel : Nat) (st : Ctx) (scope : Nat),
      executeNode js (fuel + 1) (.call "popColor" []) st scope =
        { st with colorStack := popColorStack st.colorStack }) ∧
    (∀ s : List String, popColorStack s ≠ []) ∧
    (∀ s : List String, (popColorStack s).getLast?.isSome = true) ∧
    popColorStack [] = ["rgb(0,0,0)"] ∧
    (∀ c : String, popColorStack [c] = ["rgb(0,0,0)"]) ∧
    (∀ (s : List String) (c : String),
      popColorStack (s ++ [c]) = if s.isEmpty then ["rgb(0,0,0)"] else s) := by
  have hne : ∀ s : List String, popColorStack s ≠ [] := by
    intro s
    simp only [popColorStack]
    split
    · simp
    · rename_i h
      simpa using h
  refine ⟨?_, hne, ?_, rfl, ?_, ?_⟩
  · intro js fuel st scope
    rfl
  · intro s
    rw [List.getLast?_isSome]
    exact hne s
  · intro c
    rfl
  · intro s c
    simp [popColorStack]

/-! ## C1: the counted loop never iterates -/

/-- C1: on `loop i=5 times: print(i)` the parser produces a `LoopFor`
node carrying `countExpr`, but the interpreter reads the absent `count`
property, so the pass count is zero: the count expression is never
evaluated, the body never runs, and `print` is never invoked (the claim
requires prints 0,1,2,3,4).  No error is reported either. -/
theorem C1_loopfor_never_iterates :
    parse (lex loopPrintSrc) = [.loopFor "i" "5" [.call "print" ["i"]]] ∧
    loopForIterations loopForCountRead = 0 ∧
    (runProgram jsNone 50 loopPrintSrc).prints = [] ∧
    (runProgram jsNone 50 loopPrintSrc).errors = [] :=
  ⟨rfl, rfl, rfl, rfl⟩

/-! ## C2: bracket-indexed assignment does not mutate the container -/

/-- C2: `board[2][3] = 10` parses as an `Assignment` whose `varName` is
the literal text `board[2][3]`, and executing it performs a plain scope
set under that literal name: the `board` list is left untouched and a new
property literally named `board[2][3]` is defined — no base-variable
resolution or index walking happens (the claim requires the element to be
mutated). -/
theorem C2_indexed_assignment_is_literal_set :
    parse (lex "board[2][3] = 10") = [.assignment "board[2][3]" "10"] ∧
    (executeNode jsNone 1 (.assignment "board[2][3]" "10") boardCtx 0).arena =
      [⟨[("board", .list [.list [.num 0, .num 0], .list [.num 0, .num 0]]),
         ("board[2][3]", .num 10)], none⟩] ∧
    (executeNode jsNone 1 (.assignment "board[2][3]" "10") boardCtx 0).errors = [] :=
  ⟨rfl, rfl, rfl⟩

/-! ## C3: the fixed built-in surface of the general evaluation path -/

/-- C3: the environment handed to the compiled expression consists of the
scope-chain flatten plus exactly the three fixed callables `keyDown`,
`sin`, `cos` — `keyDown` resolving (last-binding-wins) to the
pressed-key membership test — while `floor`, `random` and `abs` are not
provided at all (the claim, like the repository's own documentation page,
lists them as available). -/
theorem C3_builtin_environment :
    builtinEnvTail.map Prod.fst = ["keyDown", "sin", "cos"] ∧
    (∀ (st : Ctx) (scope : Nat),
      envLookup (buildEnv st scope) "keyDown" = some (.fn .keyDown) ∧
      envLookup (buildEnv st scope) "sin" = some (.fn .sin) ∧
      envLookup (buildEnv st scope) "cos" = some (.fn .cos)) ∧
    envLookup (buildEnv freshCtx 0) "floor" = none ∧
    envLookup (buildEnv freshCtx 0) "random" = none ∧
    envLookup (buildEnv freshCtx 0) "abs" = none ∧
    keyDownImpl keysCtx "a" = true ∧
    keyDownImpl keysCtx "c" = false ∧
    (∀ (st : Ctx) (key : String), keyDownImpl st key = st.keysDown.contains key) := by
  refine ⟨rfl, ?_, rfl, rfl, rfl, rfl, rfl, fun _ _ => rfl⟩
  intro st scope
  refine ⟨?_, ?_, ?_⟩ <;>
    · unfold envLookup buildEnv builtinEnvTail
      rw [List.reverse_append]
      simp [List.find?]

/-! ## C4: writes reach the owning ancestor, but the loop scenario fails -/

/-- C4: `setVar` from a child scope writes a name owned by the globals
into the globals (visible outside the block) and defines an unowned name
in the innermost scope — but the claim's consequence scenario fails on
the code: `x=0; loop i=3 times: x=x+1` leaves `x` equal to 0, not 3,
because the `LoopFor` body never executes (see C1). -/
theorem C4_setvar_ancestor_write_loop_scenario :
    (setVar "x" (.num 5) childCtx 1).arena =
      [⟨[("x", .num 5)], none⟩, ⟨[], some 0⟩] ∧
    (setVar "y" (.num 7) childCtx 1).arena =
      [⟨[("x", .num 0)], none⟩, ⟨[("y", .num 7)], some 0⟩] ∧
    parse (lex loopIncSrc) =
      [.assignment "x" "0", .loopFor "i" "3" [.assignment "x" "x+1"]] ∧
    (runProgram jsNone 50 loopIncSrc).arena =
      [⟨[("x", .num 0)], none⟩, ⟨[], some 0⟩] :=
  ⟨rfl, rfl, rfl, rfl⟩

/-! ## C5: indentation decides block membership -/

/-- C5: `parseBlock` keeps consuming statements into the open block
exactly while the next token's indent is strictly greater than the
opener's indent, and stops (without consuming) at the first token whose
indent is less than or equal; in particular `if x>0:` followed by an
indented `a()` and an unindented `b()` parses `b()` as a sibling of the
if-statement, not inside it. -/
theorem C5_indentation_block_structure :
    (∀ (toks : List Token) (parentIndent : Int) (pos : Nat) (t : Token) (fuel : Nat),
      toks.get? pos = some t → (t.indent : Int) ≤ parentIndent →
      parseBlock toks (fuel + 1) parentIndent pos = ([], pos)) ∧
    (∀ (toks : List Token) (parentIndent : Int) (pos : Nat) (t : Token) (fuel : Nat),
      toks.get? pos = some t → parentIndent < (t.indent : Int) →
      (parseBlock toks (fuel + 1) parentIndent pos).1 =
        (parseStatement toks fuel pos).1 ::
          (parseBlock toks fuel parentIndent (parseStatement toks fuel pos).2).1) ∧
    lex ifSiblingSrc = [⟨"if x>0:", 0⟩, ⟨"a()", 4⟩, ⟨"b()", 0⟩] ∧
    parse (lex ifSiblingSrc) = [.ifStatement "x>0" [.call "a" []] [], .call "b" []] := by
  refine ⟨?_, ?_, rfl, rfl⟩
  · intro toks pI pos t fuel h hle
    show (parseAt toks (fuel + 1)).block pI pos = ([], pos)
    rw [parseAt]
    simp only [parseStep, h]
    rw [if_pos hle]
  · intro toks pI pos t fuel h hlt
    show ((parseAt toks (fuel + 1)).block pI pos).1 = _
    rw [parseAt]
    simp only [parseStep, h]
    rw [if_neg (not_le.mpr hlt)]
    rfl

/-- Witness for C5: in the tokens of the sibling scenario, the block of
the `if` at indent 0 terminates at `b()` (indent 0), while the top-level
block at parent indent −1 admits the `if` itself. -/
theorem C5_indentation_block_structure_witness :
    parseBlock (lex ifSiblingSrc) 3 0 2 = ([], 2) ∧
    (parseBlock (lex ifSiblingSrc) 4 (-1) 0).1 =
      (parseStatement (lex ifSiblingSrc) 3 0).1 ::
        (parseBlock (lex ifSiblingSrc) 3 (-1) (parseStatement (lex ifSiblingSrc) 3 0).2).1 :=
  ⟨C5_indentation_block_structure.1 (lex ifSiblingSrc) 0 2 ⟨"b()", 0⟩ 2 rfl (by decide),
   C5_indentation_block_structure.2.1 (lex ifSiblingSrc) (-1) 0 ⟨"if x>0:", 0⟩ 3 rfl
     (by decide)⟩

/-! ## C6: return handling in function bodies -/

/-- C6: calling a function absent from the registry reports a condition
and yields undefined; the first `ReturnStatement` in the body's direct
statement list evaluates its expression in the function scope and
short-circuits the remaining direct statements (whatever follows the
first return never affects the result); and a `ReturnStatement` nested
inside an if-branch sub-list does not propagate: the body
`if 1: return 42` followed by `y = 7` yields undefined and still executes
the trailing assignment. -/
theorem C6_function_execution :
    (∀ (js : JsOracle) (fuel : Nat) (name : String) (rawArgs : List String)
       (st : Ctx) (callerScope : Nat),
      lookupFunc st.functions name = none →
      executeFunction js (fuel + 1) name rawArgs st callerScope =
        (.undefined, pushError st ("Function \"" ++ name ++ "\" not defined."))) ∧
    (∀ (js : JsOracle) (fuel : Nat) (e : String) (rest : List ASTNode) (st : Ctx) (scope : Nat),
      runBody js (fuel + 1) (.returnStatement e :: rest) st scope = evalExpr js e st scope) ∧
    (∀ (js : JsOracle) (fuel : Nat) (pre : List ASTNode) (e : String) (post : List ASTNode)
       (st : Ctx) (scope : Nat),
      runBody js fuel (pre ++ .returnStatement e :: post) st scope =
        runBody js fuel (pre ++ [.returnStatement e]) st scope) ∧
    runBody jsNone 9 nestedReturnBody freshCtx 0 =
      (.undefined, { freshCtx with arena := [⟨[("y", .num 7)], none⟩] }) := by
  refine ⟨?_, ?_, ?_, rfl⟩
  · intro js fuel name rawArgs st callerScope h
    unfold executeFunction execAt execStep
    simp [h]
  · intro js fuel e rest st scope
    rfl
  · intro js fuel pre e post st scope
    induction pre generalizing fuel st with
    | nil =>
      cases fuel with
      | zero => rfl
      | succ fuel => rfl
    | cons s pre ih =>
      cases fuel with
      | zero => rfl
      | succ fuel =>
        cases s
        all_goals first
          | rfl
          | exact ih fuel _

/-- Witness for C6: the missing function `g` reports its condition on the
fresh context, and a direct return short-circuits a trailing
assignment. -/
theorem C6_function_execution_witness :
    executeFunction jsNone 1 "g" [] freshCtx 0 =
      (.undefined, pushError freshCtx ("Function \"" ++ "g" ++ "\" not defined.")) ∧
    runBody jsNone 1 ([] ++ .returnStatement "5" :: [.assignment "z" "9"]) freshCtx 0 =
      runBody jsNone 1 ([] ++ [.returnStatement "5"]) freshCtx 0 :=
  ⟨C6_function_execution.1 jsNone 0 "g" [] freshCtx 0 rfl,
   C6_function_execution.2.2.1 jsNone 1 [] "5" [.assignment "z" "9"] freshCtx 0⟩

/-! ## C9: failed expression evaluation -/

/-- Executing the empty statement list leaves the state unchanged at any
fuel. -/
theorem execList_nil (js : JsOracle) (fuel : Nat) (st : Ctx) (scope : Nat) :
    execList js fuel [] st scope = st := by
  cases fuel <;> rfl

/-- C9 counterexample: executing `x = (` — an assignment whose right-hand
side fails to evaluate — on a fresh context reports the condition with
the offending text, but does NOT leave the scope unchanged: the target
name `x` becomes a defined binding (holding undefined), so a subsequent
read of `x` succeeds where it previously reported an undefined-variable
condition. -/
theorem C9_scope_changed_on_failed_assignment :
    (executeNode jsNone 1 (.assignment "x" "(") freshCtx 0).errors =
      ["Failed to evaluate expression: \"(\""] ∧
    (executeNode jsNone 1 (.assignment "x" "(") freshCtx 0).arena =
      [⟨[("x", .undefined)], none⟩] ∧
    lookupVar (executeNode jsNone 1 (.assignment "x" "(") freshCtx 0).arena 0 "x" =
      some .undefined ∧
    lookupVar freshCtx.arena 0 "x" = none ∧
    (executeNode jsNone 1 (.assignment "x" "(") freshCtx 0).arena ≠ freshCtx.arena := by
  refine ⟨rfl, rfl, rfl, rfl, ?_⟩
  intro h
  have h2 : lookupVar (executeNode jsNone 1 (.assignment "x" "(") freshCtx 0).arena 0 "x" =
      some .undefined := rfl
  rw [h] at h2
  exact Option.noConfusion h2

/-- C9 (amended): every expression that reaches the general evaluation
path and whose host evaluation throws is caught locally, reported as a
single condition carrying the offending text, and evaluates to
undefined; the surrounding assignment then stores that undefined under
its target name through the normal scope write (defining the name if
absent) rather than leaving the scope unchanged, and the subsequent
statement executes on the updated state. -/
theorem C9_eval_failure_reported_and_continues :
    ∀ (js : JsOracle) (expr : String) (st : Ctx) (scope : Nat) (name : String)
      (s2 : ASTNode) (fuel : Nat),
      expr ≠ "" →
      decodeIntLit expr.data = none →
      isIdentChars expr.data = false →
      js (transformAndOr expr) (buildEnv st scope) = none →
      evalExpr js expr st scope =
        (.undefined, pushError st ("Failed to evaluate expression: \"" ++ expr ++ "\"")) ∧
      executeNode js (fuel + 1) (.assignment name expr) st scope =
        setVar name .undefined
          (pushError st ("Failed to evaluate expression: \"" ++ expr ++ "\"")) scope ∧
      execList js (fuel + 2) [.assignment name expr, s2] st scope =
        executeNode js fuel s2
          (setVar name .undefined
            (pushError st ("Failed to evaluate expression: \"" ++ expr ++ "\"")) scope)
          scope := by
  intro js expr st scope name s2 fuel hne hdec hident hjs
  have hA : evalExpr js expr st scope =
      (.undefined, pushError st ("Failed to evaluate expression: \"" ++ expr ++ "\"")) := by
    unfold evalExpr
    rw [if_neg hne, hdec, hident, hjs]
    rfl
  have hB : executeNode js (fuel + 1) (.assignment name expr) st scope =
      setVar name .undefined
        (pushError st ("Failed to evaluate expression: \"" ++ expr ++ "\"")) scope := by
    show (execAt js (fuel + 1)).node (.assignment name expr) st scope = _
    rw [execAt]
    simp only [execStep, hA]
  have hB' : (execAt js (fuel + 1)).node (.assignment name expr) st scope =
      setVar name .undefined
        (pushError st ("Failed to evaluate expression: \"" ++ expr ++ "\"")) scope := hB
  refine ⟨hA, hB, ?_⟩
  show (execAt js (fuel + 2)).list [.assignment name expr, s2] st scope = _
  rw [execAt]
  simp only [execStep]
  rw [hB']
  rw [execAt]
  simp only [execStep]
  exact execList_nil js fuel _ scope

/-- Witness for C9 (amended) at the concrete failing text `(` on the
fresh context. -/
theorem C9_eval_failure_witness :
    evalExpr jsNone "(" freshCtx 0 =
      (.undefined, pushError freshCtx ("Failed to evaluate expression: \"" ++ "(" ++ "\"")) ∧
    executeNode jsNone 1 (.assignment "x" "(") freshCtx 0 =
      setVar "x" .undefined
        (pushError freshCtx ("Failed to evaluate expression: \"" ++ "(" ++ "\"")) 0 ∧
    execList jsNone 2 [.assignment "x" "(", .noop] freshCtx 0 =
      executeNode jsNone 0 .noop
        (setVar "x" .undefined
          (pushError freshCtx ("Failed to evaluate expression: \"" ++ "(" ++ "\"")) 0) 0 :=
  C9_eval_failure_reported_and_continues jsNone "(" freshCtx 0 "x" .noop 0
    (by decide) rfl rfl rfl

/-! ## C10: parameter binding writes through to the caller's chain -/

/-- The chain walk succeeds with any larger fuel. -/
theorem chainOwner_mono (a : List Frame) (n : String) :
    ∀ (f g id j : Nat), f ≤ g → chainOwner a f id n = some j →
      chainOwner a g id n = some j := by
  intro f
  induction f with
  | zero =>
    intro g id j _ h
    rw [chainOwner] at h
    exact absurd h (by simp)
  | succ f ih =>
    intro g id j hle h
    obtain ⟨g', rfl⟩ : ∃ g', g = g' + 1 := ⟨g - 1, by omega⟩
    rw [chainOwner] at h
    rw [chainOwner]
    cases hid : a.get? id with
    | none => rw [hid] at h; exact absurd h (by simp)
    | some fr =>
      rw [hid] at h
      simp only at h ⊢
      by_cases hown : frameOwns fr n = true
      · simpa [hown] using h
      · simp only [Bool.not_eq_true] at hown
        simp only [hown] at h ⊢
        cases hp : fr.parent with
        | none => rw [hp] at h; exact absurd h (by simp)
        | some p =>
          rw [hp] at h
          simp only at h ⊢
          exact ih g' p j (by omega) h

/-- The frame returned by the chain walk owns the name. -/
theorem chainOwner_owns (a : List Frame) (n : String) :
    ∀ (f id j : Nat), chainOwner a f id n = some j →
      ∃ fr, a.get? j = some fr ∧ frameOwns fr n = true := by
  intro f
  induction f with
  | zero => intro id j h; rw [chainOwner] at h; cases h
  | succ f ih =>
    intro id j h
    rw [chainOwner] at h
    cases hid : a.get? id with
    | none => rw [hid] at h; cases h
    | some fr =>
      rw [hid] at h
      simp only at h
      by_cases hown : frameOwns fr n = true
      · rw [if_pos hown] at h
        obtain rfl : id = j := Option.some.inj h
        exact ⟨fr, hid, hown⟩
      · simp only [Bool.not_eq_true] at hown
        simp only [hown] at h
        cases hp : fr.parent with
        | none => rw [hp] at h; cases h
        | some p => rw [hp] at h; exact ih p j h

/-- In-place property overwrite preserves the key set of a frame. -/
theorem owns_map_set (l : List (String × Value)) (n m : String) (v : Value) :
    ((l.map (fun p => if p.1 = n then (n, v) else p)).any (fun p => p.1 = m)) =
      (l.any (fun p => p.1 = m)) := by
  induction l with
  | nil => rfl
  | cons p rest ih =>
    simp only [List.map_cons, List.any_cons, ih]
    by_cases h : p.1 = n
    · simp [h]
    · simp [h]

theorem frameSet_parent (f : Frame) (n : String) (v : Value) :
    (frameSet f n v).parent = f.parent := by
  unfold frameSet
  split <;> rfl

/-- Writing an owned property changes no frame's ownership facts. -/
theorem frameOwns_frameSet (f : Frame) (n : String) (v : Value)
    (hown : frameOwns f n = true) (m : String) :
    frameOwns (frameSet f n v) m = frameOwns f m := by
  unfold frameSet
  rw [if_pos hown]
  exact owns_map_set f.vars n m v

/-- An in-place overwrite of the first matching key is found by `find?`. -/
theorem find_map_set (l : List (String × Value)) (n : String) (v : Value)
    (h : l.any (fun p => p.1 = n) = true) :
    ((l.map (fun p => if p.1 = n then (n, v) else p)).find? (fun p => p.1 = n)) =
      some (n, v) := by
  induction l with
  | nil => simp at h
  | cons p rest ih =>
    by_cases hp : p.1 = n
    · simp [hp]
    · simp only [List.any_cons, Bool.or_eq_true, decide_eq_true_eq] at h
      rcases h with h | h
      · exact absurd h hp
      · simp only [List.map_cons, if_neg hp]
        rw [List.find?_cons_of_neg _ (by simpa using hp)]
        exact ih h

/-- Reading back the overwritten property yields the new value. -/
theorem frameGet_frameSet_self (f : Frame) (n : String) (v : Value)
    (hown : frameOwns f n = true) :
    frameGet (frameSet f n v) n = some v := by
  unfold frameSet
  rw [if_pos hown]
  unfold frameGet
  unfold frameOwns at hown
  rw [show ({ f with vars := f.vars.map (fun p => if p.1 = n then (n, v) else p) } : Frame).vars =
        f.vars.map (fun p => if p.1 = n then (n, v) else p) from rfl]
  rw [find_map_set f.vars n v hown]
  rfl

theorem setFrameAt_length (a : List Frame) (j : Nat) (n : String) (v : Value) :
    (setFrameAt a j n v).length = a.length := by
  unfold setFrameAt
  cases h : a.get? j with
  | none => rfl
  | some f => simp [List.length_set]

theorem get?_setFrameAt_self (a : List Frame) (j : Nat) (n : String) (v : Value) (f : Frame)
    (h : a.get? j = some f) :
    (setFrameAt a j n v).get? j = some (frameSet f n v) := by
  unfold setFrameAt
  rw [h]
  rw [List.get?_eq_getElem?] at h ⊢
  have hj : j < a.length := by
    by_contra hc
    rw [List.getElem?_eq_none (Nat.le_of_not_lt hc)] at h
    cases h
  simp [List.getElem?_set_self hj]

theorem get?_setFrameAt_ne (a : List Frame) (j i : Nat) (n : String) (v : Value) (h : i ≠ j) :
    (setFrameAt a j n v).get? i = a.get? i := by
  unfold setFrameAt
  cases hj : a.get? j with
  | none => rfl
  | some f =>
    rw [List.get?_eq_getElem?, List.get?_eq_getElem?]
    exact List.getElem?_set_ne (Ne.symm h)

/-- Overwriting an owned property leaves every chain walk unchanged. -/
theorem chainOwner_setFrameAt (a : List Frame) (j : Nat) (n : String) (v : Value) (fj : Frame)
    (hj : a.get? j = some fj) (hown : frameOwns fj n = true) :
    ∀ (fuel id : Nat) (m : String),
      chainOwner (setFrameAt a j n v) fuel id m = chainOwner a fuel id m := by
  intro fuel
  induction fuel with
  | zero => intro id m; rfl
  | succ fuel ih =>
    intro id m
    rw [chainOwner, chainOwner]
    by_cases hij : id = j
    · subst hij
      rw [hj, get?_setFrameAt_self a id n v fj hj]
      simp only [frameOwns_frameSet fj n v hown m, frameSet_parent]
      by_cases hm : frameOwns fj m = true
      · simp [hm]
      · simp only [Bool.not_eq_true] at hm
        simp only [hm]
        cases fj.parent with
        | none => rfl
        | some p => exact ih p m
    · rw [get?_setFrameAt_ne a j id n v hij]
      cases a.get? id with
      | none => rfl
      | some fr =>
        simp only
        by_cases hm : frameOwns fr m = true
        · simp [hm]
        · simp only [Bool.not_eq_true] at hm
          simp only [hm]
          cases fr.parent with
          | none => rfl
          | some p => exact ih p m

/-- C10: binding a declared parameter whose name is already owned in the
caller's scope chain writes the evaluated argument into that existing
owning ancestor — `setVar` from the fresh (empty) function scope lands in
the owner `j`, the caller's chain then reads the argument value, and the
function scope itself stays empty (no fresh local binding) — and in the
end-to-end program `function f(x): return 0` with global `x = 1`, calling
`f(42)` leaves the caller's `x` equal to 42. -/
theorem C10_param_binding_mutates_caller :
    (∀ (st : Ctx) (id p j : Nat) (name : String) (v : Value),
      st.arena.get? id = some ⟨[], some p⟩ →
      chainOwner st.arena st.arena.length p name = some j →
      j ≠ id →
      setVar name v st id = { st with arena := setFrameAt st.arena j name v } ∧
      lookupVar (setVar name v st id).arena p name = some v ∧
      (setVar name v st id).arena.get? id = some ⟨[], some p⟩) ∧
    (∀ (js : JsOracle) (pname argE : String) (st : Ctx) (caller funcScope : Nat),
      bindParams js [pname] [argE] st caller funcScope =
        setVar pname (evalExpr js argE st caller).1 (evalExpr js argE st caller).2 funcScope) ∧
    parse (lex funcCallSrc) =
      [.functionDeclaration "f" ["x"] [.returnStatement "0"],
       .assignment "x" "1", .call "f" ["42"]] ∧
    (runProgram jsNone 50 funcCallSrc).arena =
      [⟨[("x", .num 42)], none⟩, ⟨[], some 0⟩] ∧
    (runProgram jsNone 50 funcCallSrc).errors = [] := by
  refine ⟨?_, ?_, rfl, rfl, rfl⟩
  · intro st id p j name v hid hj hne
    obtain ⟨fj, hfj, hfown⟩ := chainOwner_owns st.arena name st.arena.length p j hj
    have hco : chainOwner st.arena (st.arena.length + 1) id name = some j := by
      rw [chainOwner, hid]
      exact hj
    have hsv : setVar name v st id = { st with arena := setFrameAt st.arena j name v } := by
      unfold setVar
      rw [hco]
    refine ⟨hsv, ?_, ?_⟩
    · rw [hsv]
      show lookupVar (setFrameAt st.arena j name v) p name = some v
      unfold lookupVar
      rw [setFrameAt_length]
      rw [chainOwner_setFrameAt st.arena j name v fj hfj hfown (st.arena.length + 1) p name]
      rw [chainOwner_mono st.arena name st.arena.length (st.arena.length + 1) p j
        (Nat.le_succ _) hj]
      show ((setFrameAt st.arena j name v).get? j).bind (fun f => frameGet f name) = some v
      rw [get?_setFrameAt_self st.arena j name v fj hfj]
      exact frameGet_frameSet_self fj name v hfown
    · rw [hsv]
      show (setFrameAt st.arena j name v).get? id = some ⟨[], some p⟩
      rw [get?_setFrameAt_ne st.arena j id name v (Ne.symm hne)]
      exact hid
  · intro js pname argE st caller funcScope
    rfl

/-- Witness for C10: binding `x := 42` from a fresh function scope whose
caller globally owns `x = 1` writes the globals. -/
theorem C10_param_binding_mutates_caller_witness :
    setVar "x" (.num 42) callCtx 1 =
      { callCtx with arena := setFrameAt callCtx.arena 0 "x" (.num 42) } ∧
    lookupVar (setVar "x" (.num 42) callCtx 1).arena 0 "x" = some (.num 42) ∧
    (setVar "x" (.num 42) callCtx 1).arena.get? 1 = some ⟨[], some 0⟩ :=
  C10_param_binding_mutates_caller.1 callCtx 1 0 0 "x" (.num 42) rfl rfl (by decide)

end Blocks
